import Mathlib

set_option autoImplicit false

namespace ThreeDAsset

/-! Shallow embedding of the asset-resolution pipeline of `three-d-asset`
(src/io/raw_assets.rs, src/io/loader.rs, src/io.rs, src/io/obj.rs,
src/io/gltf.rs).  Byte buffers are `List Nat`; keys are UTF-8 strings
(`PathBuf` keys in the source are always passed through `to_str().unwrap()`,
so the valid-UTF-8 case is the one the code supports). -/

abbrev Bytes := List Nat

/-- The variants of the crate `Error` enum (src/lib.rs) reachable from the
embedded functions.  Payloads that are foreign error values are dropped. -/
inductive Err where
  | NotLoaded (path : String)
  | FeatureMissing (feature : String)
  | FailedLoading (path : String)
  deriving DecidableEq, Repr

/-! ### Byte-string primitives (semantics of the `str` methods used by the source) -/

/-- `listHasPre pat l` holds when `pat` occurs at the front of `l`
(the semantics of Rust `str::starts_with`). -/
def listHasPre : List Char → List Char → Bool
  | [], _ => true
  | _ :: _, [] => false
  | p :: ps, c :: cs => p = c && listHasPre ps cs

/-- `listHasSub pat l` holds when `pat` occurs contiguously somewhere in `l`
(the semantics of Rust `str::contains`). -/
def listHasSub (pat : List Char) : List Char → Bool
  | [] => pat.isEmpty
  | c :: cs => listHasPre pat (c :: cs) || listHasSub pat cs

/-- First index at which `pat` occurs in the list, if any
(the semantics of Rust `str::find` with a string pattern). -/
def firstIdxOfAux (pat : List Char) : List Char → Option Nat
  | [] => if pat.isEmpty then some 0 else none
  | c :: cs =>
    if listHasPre pat (c :: cs) then some 0
    else (firstIdxOfAux pat cs).map (· + 1)

def strStartsWith (s pat : String) : Bool := listHasPre pat.data s.data

def strEndsWith (s pat : String) : Bool := listHasPre pat.data.reverse s.data.reverse

def strContains (s pat : String) : Bool := listHasSub pat.data s.data

def strFind (s pat : String) : Option Nat := firstIdxOfAux pat.data s.data

/-- Rust `p[0..p.len() - n]` for ASCII suffixes: drop the last `n` characters. -/
def strDropRight (s : String) (n : Nat) : String :=
  String.mk (s.data.take (s.data.length - n))

/-! ### The RawAssets store (src/io/raw_assets.rs)

`RawAssets` wraps a `HashMap<PathBuf, Vec<u8>>`.  We embed it as an
association list whose order stands for the (unspecified) hash-map iteration
order; the hash-map invariant "each key present at most once" is the
`List.Nodup` of the key column. -/

abbrev RawAssets := List (String × Bytes)

def lookupStore : RawAssets → String → Option Bytes
  | [], _ => none
  | (k, v) :: t, path => if k = path then some v else lookupStore t path

/-- `HashMap::insert`: overwrite the entry for the key if present, else add it. -/
def insertStore : RawAssets → String → Bytes → RawAssets
  | [], k, v => [(k, v)]
  | (k', v') :: t, k, v =>
    if k' = k then (k, v) :: t else (k', v') :: insertStore t k v

/-- `HashMap::remove_entry`: drop the entry for the key if present. -/
def eraseStore : RawAssets → String → RawAssets
  | [], _ => []
  | (k', v') :: t, k => if k' = k then t else (k', v') :: eraseStore t k

def storeKeys (a : RawAssets) : List String := a.map Prod.fst

/-- Modelled from the spec: `RawAssets::contains_key` is called by
`get_dependencies` (src/io.rs line 309) but its body is not among the provided
sources; per the spec it tests whether a key is "already present in the store"
(exact membership). -/
def containsKey (a : RawAssets) (path : String) : Bool :=
  (lookupStore a path).isSome

/-- The probe rewriting performed by `RawAssets::get`/`remove` on a missed key:
a trailing `".jpeg"` loses its last two characters and a trailing `".jpg"` its
last one, both yielding the shared prefix ending in `".jp"`. -/
def fuzzyProbe (path : String) : String :=
  if strEndsWith path ".jpeg" then strDropRight path 2
  else if strEndsWith path ".jpg" then strDropRight path 1
  else path

/-- `RawAssets::get` (src/io/raw_assets.rs lines 48-66). -/
def RawAssets.get (a : RawAssets) (path : String) : Except Err Bytes :=
  match lookupStore a path with
  | some bytes => Except.ok bytes
  | none =>
    match List.find? (fun kv => strContains kv.1 (fuzzyProbe path)) a with
    | some kv => Except.ok kv.2
    | none => Except.error (Err.NotLoaded (fuzzyProbe path))

/-- `RawAssets::remove` (src/io/raw_assets.rs lines 24-43); the second
component is the store after the removal. -/
def RawAssets.remove (a : RawAssets) (path : String) : Except Err (Bytes × RawAssets) :=
  match lookupStore a path with
  | some bytes => Except.ok (bytes, eraseStore a path)
  | none =>
    match List.find? (fun kv => strContains kv.1 (fuzzyProbe path)) a with
    | some kv => Except.ok (kv.2, eraseStore a kv.1)
    | none => Except.error (Err.NotLoaded (fuzzyProbe path))

/-- `RawAssets::insert` (src/io/raw_assets.rs lines 72-74). -/
def RawAssets.insert (a : RawAssets) (path : String) (bytes : Bytes) : RawAssets :=
  insertStore a path bytes

/-- The merge half of `RawAssets::extend`: drain the other store's entries
into this one, insertion overwriting. -/
def mergeStore (self other : RawAssets) : RawAssets :=
  other.foldl (fun acc kv => insertStore acc kv.1 kv.2) self

/-- `RawAssets::extend` (src/io/raw_assets.rs lines 76-81): the first component
is the updated `self`, the second the drained (hence empty) `other`. -/
def RawAssets.extend (self other : RawAssets) : RawAssets × RawAssets :=
  (mergeStore self other, [])

/-! ### The two-stage lookup, as the spec words it -/

/-- The lookup algorithm exactly as the spec describes it: exact match first;
otherwise truncate a trailing `".jpeg"`/`".jpg"` to their shared prefix and
accept the first stored key containing that probe as a substring; otherwise
fail with `NotLoaded`. -/
def twoStageLookup (a : RawAssets) (path : String) : Except Err Bytes :=
  match lookupStore a path with
  | some bytes => Except.ok bytes
  | none =>
    let probe :=
      if strEndsWith path ".jpeg" then strDropRight path 2
      else if strEndsWith path ".jpg" then strDropRight path 1
      else path
    match List.find? (fun kv => strContains kv.1 probe) a with
    | some kv => Except.ok kv.2
    | none => Except.error (Err.NotLoaded probe)

theorem get_eq_twoStage (a : RawAssets) (path : String) :
    RawAssets.get a path = twoStageLookup a path := rfl

theorem remove_bytes_eq_get (a : RawAssets) (path : String) :
    (RawAssets.remove a path).map Prod.fst = RawAssets.get a path := by
  unfold RawAssets.remove RawAssets.get
  cases lookupStore a path with
  | some bytes => rfl
  | none =>
    cases List.find? (fun kv => strContains kv.1 (fuzzyProbe path)) a with
    | some kv => rfl
    | none => rfl

/-- C2: lookup on `RawAssets` (`get`, and `remove` for the returned bytes)
follows the two-stage algorithm: exact match returns the key's own bytes;
otherwise the `.jpeg`/`.jpg`-truncated probe is matched by substring
containment against stored keys, the first containing key winning.  In
particular `"tex.jpg"` finds bytes stored under `"tex.jpeg"` and vice versa,
while `"unrelated.jpg"` against a store holding only `"tex.jpeg"` fails with
`NotLoaded`. -/
theorem lookup_two_stage_contract :
    (∀ a path, RawAssets.get a path = twoStageLookup a path)
    ∧ (∀ a path, (RawAssets.remove a path).map Prod.fst = twoStageLookup a path)
    ∧ RawAssets.get [("tex.jpeg", [7])] "tex.jpg" = Except.ok [7]
    ∧ RawAssets.get [("tex.jpg", [7])] "tex.jpeg" = Except.ok [7]
    ∧ (RawAssets.remove [("tex.jpeg", [7])] "tex.jpg").map Prod.fst = Except.ok [7]
    ∧ (∃ p, RawAssets.get [("tex.jpeg", [7])] "unrelated.jpg"
          = Except.error (Err.NotLoaded p)) := by
  refine ⟨fun a path => get_eq_twoStage a path,
    fun a path => (remove_bytes_eq_get a path).trans (get_eq_twoStage a path),
    rfl, rfl, rfl, ⟨"unrelated.jp", rfl⟩⟩

/-- C4 counterexample: when both lookup stages miss on a key ending in
`".jpg"`, the `NotLoaded` error carries the truncated probe string, not the
identifier the caller asked for. -/
theorem notLoaded_payload_is_probe :
    RawAssets.get [("tex.jpeg", [7])] "unrelated.jpg"
      = Except.error (Err.NotLoaded "unrelated.jp")
    ∧ Err.NotLoaded "unrelated.jp" ≠ Err.NotLoaded "unrelated.jpg" :=
  ⟨rfl, by decide⟩

/-- C4 amended: when both stages of lookup miss, `get` and `remove` fail with
`NotLoaded` carrying the probe string — the requested key after the
`.jpeg`/`.jpg` truncation — which coincides with the requested key exactly
when the key does not end in `".jpeg"` or `".jpg"`. -/
theorem lookup_failure_carries_probe (a : RawAssets) (path : String)
    (hmiss : lookupStore a path = none)
    (hfuzz : List.find? (fun kv => strContains kv.1 (fuzzyProbe path)) a = none) :
    RawAssets.get a path = Except.error (Err.NotLoaded (fuzzyProbe path))
    ∧ RawAssets.remove a path = Except.error (Err.NotLoaded (fuzzyProbe path))
    ∧ (strEndsWith path ".jpeg" = false → strEndsWith path ".jpg" = false →
        fuzzyProbe path = path) := by
  refine ⟨?_, ?_, ?_⟩
  · unfold RawAssets.get
    rw [hmiss, hfuzz]
  · unfold RawAssets.remove
    rw [hmiss, hfuzz]
  · intro h1 h2
    unfold fuzzyProbe
    rw [h1, h2]
    rfl

theorem lookup_failure_carries_probe_witness :
    RawAssets.get [] "unrelated.jpg" = Except.error (Err.NotLoaded "unrelated.jp")
    ∧ RawAssets.remove [] "unrelated.jpg" = Except.error (Err.NotLoaded "unrelated.jp")
    ∧ (strEndsWith "unrelated.jpg" ".jpeg" = false →
        strEndsWith "unrelated.jpg" ".jpg" = false →
        fuzzyProbe "unrelated.jpg" = "unrelated.jpg") :=
  lookup_failure_carries_probe [] "unrelated.jpg" rfl rfl

/-- C10: the fuzzy substring stage applies to every missed key, not only to
`.jpg`/`.jpeg` aliases — for a missed key with neither suffix the probe is the
whole requested string, the first stored key containing it is accepted (e.g.
`"test.png"` matches a stored `"test_data/test.png"`), and `NotLoaded` arises
only when no stored key contains it. -/
theorem fuzzy_stage_applies_to_all_keys (a : RawAssets) (path : String)
    (hmiss : lookupStore a path = none)
    (h1 : strEndsWith path ".jpeg" = false)
    (h2 : strEndsWith path ".jpg" = false) :
    RawAssets.get a path
      = (match List.find? (fun kv => strContains kv.1 path) a with
         | some kv => Except.ok kv.2
         | none => Except.error (Err.NotLoaded path))
    ∧ (RawAssets.remove a path).map Prod.fst = RawAssets.get a path
    ∧ RawAssets.get [("test_data/test.png", [3])] "test.png" = Except.ok [3] := by
  have hp : fuzzyProbe path = path := by
    unfold fuzzyProbe
    rw [h1, h2]
    rfl
  refine ⟨?_, remove_bytes_eq_get a path, rfl⟩
  unfold RawAssets.get
  rw [hmiss, hp]

theorem fuzzy_stage_applies_to_all_keys_witness :
    RawAssets.get [("test_data/test.png", [3])] "test.png"
      = (match List.find? (fun kv => strContains kv.1 "test.png")
            [("test_data/test.png", [3])] with
         | some kv => Except.ok kv.2
         | none => Except.error (Err.NotLoaded "test.png"))
    ∧ (RawAssets.remove [("test_data/test.png", [3])] "test.png").map Prod.fst
        = RawAssets.get [("test_data/test.png", [3])] "test.png"
    ∧ RawAssets.get [("test_data/test.png", [3])] "test.png" = Except.ok [3] :=
  fuzzy_stage_applies_to_all_keys [("test_data/test.png", [3])] "test.png" rfl rfl rfl

/-! ### The source classifier (src/io/loader.rs lines 327-340 and 95-108) -/

/-- `is_data_url` (src/io/loader.rs lines 336-340). -/
def is_data_url (path : String) : Bool := strStartsWith path "data:"

/-- `is_absolute_url` (src/io/loader.rs lines 327-334). -/
def is_absolute_url (path : String) : Bool :=
  (match strFind path "://" with
   | some i => decide (0 < i)
   | none => false)
  || (match strFind path "//" with
      | some i => decide (i = 0)
      | none => false)

inductive SourceKind where
  | DataURI
  | AbsoluteURL
  | LocalPath
  deriving DecidableEq, Repr

/-- The classification order of `load_async_single` (src/io/loader.rs
lines 95-108): data URL first, then absolute URL, else local path. -/
def classify (path : String) : SourceKind :=
  if is_data_url path then SourceKind.DataURI
  else if is_absolute_url path then SourceKind.AbsoluteURL
  else SourceKind.LocalPath

/-- The classifier as the spec words it: `data:`-prefixed strings are data
URIs; otherwise strings whose (first) occurrence of `"://"` is at a position
greater than 0, or which begin with `"//"`, are absolute URLs; everything
else is a local path. -/
def classifySpec (path : String) : SourceKind :=
  if strStartsWith path "data:" then SourceKind.DataURI
  else if ((match strFind path "://" with
            | some i => decide (0 < i)
            | none => false)
          || strStartsWith path "//") then SourceKind.AbsoluteURL
  else SourceKind.LocalPath

theorem firstIdxOfAux_eq_zero_iff (pat l : List Char) :
    firstIdxOfAux pat l = some 0 ↔ listHasPre pat l = true := by
  cases l with
  | nil =>
    cases pat with
    | nil => exact ⟨fun _ => rfl, fun _ => rfl⟩
    | cons p ps =>
      constructor
      · intro h
        simp [firstIdxOfAux] at h
      · intro h
        simp [listHasPre] at h
  | cons c cs =>
    unfold firstIdxOfAux
    cases h : listHasPre pat (c :: cs) with
    | true => simp [h]
    | false =>
      rw [if_neg (by simp)]
      constructor
      · intro hmap
        cases hx : firstIdxOfAux pat cs with
        | none => rw [hx] at hmap; simp at hmap
        | some i => rw [hx] at hmap; simp at hmap
      · intro hfalse
        simp at hfalse

theorem find_zero_eq_startsWith (s pat : String) :
    (match strFind s pat with
     | some i => decide (i = 0)
     | none => false) = strStartsWith s pat := by
  unfold strFind strStartsWith
  cases h : firstIdxOfAux pat.data s.data with
  | none =>
    cases hp : listHasPre pat.data s.data with
    | false => rfl
    | true =>
      exfalso
      have h0 := (firstIdxOfAux_eq_zero_iff pat.data s.data).mpr hp
      rw [h] at h0
      simp at h0
  | some i =>
    by_cases hi : i = 0
    · subst hi
      have hp := (firstIdxOfAux_eq_zero_iff pat.data s.data).mp h
      rw [hp]
      rfl
    · have hp : listHasPre pat.data s.data = false := by
        cases hq : listHasPre pat.data s.data
        · rfl
        · exfalso
          have h0 := (firstIdxOfAux_eq_zero_iff pat.data s.data).mpr hq
          rw [h] at h0
          injection h0 with h0
          exact hi h0
      rw [hp]
      show decide (i = 0) = false
      simp [hi]

/-- C5: the source classifier partitions every identifier into exactly one of
the three kinds, checked in this order — `data:` prefix gives `DataURI`;
otherwise a first occurrence of `"://"` at a position greater than 0, or a
leading `"//"`, gives `AbsoluteURL`; everything else is `LocalPath`. -/
theorem classifier_partitions_identifiers (path : String) :
    classify path = classifySpec path
    ∧ (classify path = SourceKind.DataURI ↔ strStartsWith path "data:" = true)
    ∧ (classify path = SourceKind.AbsoluteURL ↔
        strStartsWith path "data:" = false ∧ is_absolute_url path = true)
    ∧ (classify path = SourceKind.LocalPath ↔
        strStartsWith path "data:" = false ∧ is_absolute_url path = false) := by
  have hcs : classify path = classifySpec path := by
    unfold classify classifySpec is_data_url is_absolute_url
    rw [find_zero_eq_startsWith]
  refine ⟨hcs, ?_, ?_, ?_⟩ <;>
    · unfold classify is_data_url
      cases hd : strStartsWith path "data:" <;>
        cases ha : is_absolute_url path <;> decide

/-! ### load_urls without network capability (src/io/loader.rs lines 209-215) -/

/-- The `load_urls` variant compiled when the runtime has no `reqwest`
network capability: any non-empty batch of URL keys yields a
`FeatureMissing` error, an empty batch an empty store fragment. -/
def load_urls (paths : List String) : Except Err RawAssets :=
  if paths.isEmpty = false then Except.error (Err.FeatureMissing "reqwest")
  else Except.ok []

/-- C7: with no network capability configured, the fetch step fails with a
capability-missing error on every non-empty URL batch and returns an empty
store fragment without error on an empty batch. -/
theorem load_urls_capability_missing (paths : List String) :
    (paths ≠ [] → load_urls paths = Except.error (Err.FeatureMissing "reqwest"))
    ∧ (paths = [] → load_urls paths = Except.ok []) := by
  constructor
  · intro h
    unfold load_urls
    cases paths with
    | nil => exact absurd rfl h
    | cons p t => rfl
  · intro h
    subst h
    rfl

theorem load_urls_capability_missing_witness :
    load_urls ["http://example.com/a.obj"] = Except.error (Err.FeatureMissing "reqwest")
    ∧ load_urls [] = Except.ok [] :=
  ⟨(load_urls_capability_missing ["http://example.com/a.obj"]).1 (by decide),
   (load_urls_capability_missing []).2 rfl⟩

/-! ### Store-merge lemmas (for `RawAssets::extend`) -/

/-- First-some choice on optional lookups, used to state how a merged store
resolves a key: the right-hand store's entry wins when present. -/
def orOpt (x y : Option Bytes) : Option Bytes :=
  match x with
  | some v => some v
  | none => y

theorem lookup_insertStore_self (a : RawAssets) (k : String) (v : Bytes) :
    lookupStore (insertStore a k v) k = some v := by
  induction a with
  | nil => simp [insertStore, lookupStore]
  | cons kv t ih =>
    obtain ⟨k', v'⟩ := kv
    by_cases h : k' = k
    · simp [insertStore, h, lookupStore]
    · simp [insertStore, h, lookupStore, ih]

theorem lookup_insertStore_ne (a : RawAssets) (k k' : String) (v : Bytes)
    (h : k' ≠ k) : lookupStore (insertStore a k v) k' = lookupStore a k' := by
  induction a with
  | nil => simp [insertStore, lookupStore, Ne.symm h]
  | cons kv t ih =>
    obtain ⟨k0, v0⟩ := kv
    by_cases h0 : k0 = k
    · subst h0
      simp [insertStore, lookupStore, Ne.symm h]
    · by_cases h1 : k0 = k'
      · simp [insertStore, h0, lookupStore, h1, h]
      · simp [insertStore, h0, lookupStore, h1, ih]

theorem mem_storeKeys_insertStore (a : RawAssets) (k x : String) (v : Bytes) :
    x ∈ storeKeys (insertStore a k v) ↔ x ∈ storeKeys a ∨ x = k := by
  induction a with
  | nil => simp [insertStore, storeKeys]
  | cons kv t ih =>
    obtain ⟨k0, v0⟩ := kv
    by_cases h0 : k0 = k
    · subst h0
      have hrw : insertStore ((k0, v0) :: t) k0 v = (k0, v) :: t := by
        simp [insertStore]
      rw [hrw]
      simp only [storeKeys, List.map_cons, List.mem_cons]
      tauto
    · have hrw : insertStore ((k0, v0) :: t) k v = (k0, v0) :: insertStore t k v := by
        simp [insertStore, h0]
      rw [hrw]
      simp only [storeKeys, List.map_cons, List.mem_cons] at ih ⊢
      rw [ih]
      tauto

theorem nodup_insertStore (k : String) (v : Bytes) :
    ∀ a : RawAssets, (storeKeys a).Nodup → (storeKeys (insertStore a k v)).Nodup := by
  intro a
  induction a with
  | nil => intro _; simp [insertStore, storeKeys]
  | cons kv t ih =>
    obtain ⟨k0, v0⟩ := kv
    intro h
    simp only [storeKeys, List.map_cons, List.nodup_cons] at h
    by_cases h0 : k0 = k
    · subst h0
      have hrw : insertStore ((k0, v0) :: t) k0 v = (k0, v) :: t := by
        simp [insertStore]
      rw [hrw]
      simp only [storeKeys, List.map_cons, List.nodup_cons]
      exact h
    · have hrw : insertStore ((k0, v0) :: t) k v = (k0, v0) :: insertStore t k v := by
        simp [insertStore, h0]
      rw [hrw]
      simp only [storeKeys, List.map_cons, List.nodup_cons]
      constructor
      · intro hmem
        rcases (mem_storeKeys_insertStore t k k0 v).mp (by simpa [storeKeys] using hmem)
          with hm | hm
        · exact h.1 (by simpa [storeKeys] using hm)
        · exact h0 hm
      · exact ih h.2

theorem lookup_none_of_not_mem :
    ∀ (a : RawAssets) (k : String), k ∉ storeKeys a → lookupStore a k = none := by
  intro a
  induction a with
  | nil => intro k _; rfl
  | cons kv t ih =>
    obtain ⟨k0, v0⟩ := kv
    intro k h
    simp only [storeKeys, List.map_cons, List.mem_cons] at h
    push_neg at h
    simp only [lookupStore, if_neg (Ne.symm h.1)]
    exact ih k (by simpa [storeKeys] using h.2)

theorem lookup_mergeStore :
    ∀ other : RawAssets, (storeKeys other).Nodup →
      ∀ (self : RawAssets) (k : String),
        lookupStore (mergeStore self other) k
          = orOpt (lookupStore other k) (lookupStore self k) := by
  intro other
  induction other with
  | nil => intro _ self k; rfl
  | cons kv t ih =>
    obtain ⟨k0, v0⟩ := kv
    intro ho self k
    simp only [storeKeys, List.map_cons, List.nodup_cons] at ho
    have hstep : mergeStore self ((k0, v0) :: t) = mergeStore (insertStore self k0 v0) t := rfl
    rw [hstep, ih (by simpa [storeKeys] using ho.2)]
    by_cases hk : k0 = k
    · subst hk
      have hnone : lookupStore t k0 = none :=
        lookup_none_of_not_mem t k0 (by simpa [storeKeys] using ho.1)
      rw [hnone, lookup_insertStore_self]
      simp [lookupStore, orOpt]
    · rw [lookup_insertStore_ne self k0 k v0 (Ne.symm hk)]
      simp [lookupStore, hk]

theorem nodup_mergeStore :
    ∀ other self : RawAssets, (storeKeys self).Nodup →
      (storeKeys (mergeStore self other)).Nodup := by
  intro other
  induction other with
  | nil => intro self hs; exact hs
  | cons kv t ih =>
    obtain ⟨k0, v0⟩ := kv
    intro self hs
    have hstep : mergeStore self ((k0, v0) :: t) = mergeStore (insertStore self k0 v0) t := rfl
    rw [hstep]
    exact ih (insertStore self k0 v0) (nodup_insertStore k0 v0 self hs)

/-- C8: `extend` folds every entry of `other` into `self` (other's bytes
winning on a shared key, since insertion overwrites), leaves entries of
`self` with keys absent from `other` unchanged, drains `other` empty, and
keeps every key present at most once. -/
theorem extend_merges_and_empties_other (self other : RawAssets)
    (hs : (storeKeys self).Nodup) (ho : (storeKeys other).Nodup) (k : String) :
    lookupStore (RawAssets.extend self other).1 k
      = orOpt (lookupStore other k) (lookupStore self k)
    ∧ (RawAssets.extend self other).2 = []
    ∧ (storeKeys (RawAssets.extend self other).1).Nodup :=
  ⟨lookup_mergeStore other ho self k, rfl, nodup_mergeStore other self hs⟩

theorem extend_merges_and_empties_other_witness :
    lookupStore (RawAssets.extend [("a", [1]), ("k", [2])] [("k", [9]), ("b", [3])]).1 "k"
      = orOpt (lookupStore [("k", [9]), ("b", [3])] "k")
          (lookupStore [("a", [1]), ("k", [2])] "k")
    ∧ (RawAssets.extend [("a", [1]), ("k", [2])] [("k", [9]), ("b", [3])]).2 = []
    ∧ (storeKeys (RawAssets.extend [("a", [1]), ("k", [2])] [("k", [9]), ("b", [3])]).1).Nodup :=
  extend_merges_and_empties_other [("a", [1]), ("k", [2])] [("k", [9]), ("b", [3])]
    (by decide) (by decide) "k"

/-! ### Path helpers (semantics of the `std::path` methods the scanners use) -/

def lastIdxOf (c : Char) : List Char → Option Nat
  | [] => none
  | x :: t =>
    match lastIdxOf c t with
    | some i => some (i + 1)
    | none => if x = c then some 0 else none

/-- Final path component (after the last '/'), as `Path::file_name`. -/
def fileNameOf (path : String) : String :=
  match lastIdxOf '/' path.data with
  | some i => String.mk (path.data.drop (i + 1))
  | none => path

/-- `Path::parent` collapsed to a string: everything before the last '/',
or the empty string when there is no separator (the case arising for the
single-component relative keys the dependency scanners receive). -/
def parentPath (path : String) : String :=
  match lastIdxOf '/' path.data with
  | some i => String.mk (path.data.take i)
  | none => ""

/-- `Path::extension`: the part of the file name after its last '.', when
that dot is not the leading character; `""` plays the role of `None`
(matching `unwrap_or("")` at src/io.rs line 291). -/
def extension (path : String) : String :=
  match lastIdxOf '.' (fileNameOf path).data with
  | some i => if 0 < i then String.mk ((fileNameOf path).data.drop (i + 1)) else ""
  | none => ""

/-- `Path::join` for the relative reference strings the scanners produce. -/
def joinPath (base rel : String) : String :=
  if base = "" then rel else base ++ "/" ++ rel

/-! ### Format dispatch (src/io/obj.rs, src/io/gltf.rs)

The wavefront-obj and gltf crates are external collaborators; their parsers
enter the embedding as oracle functions from bytes to the parts of the parse
result the dependency scanners read.  `none` covers both a UTF-8 failure and
a parse failure, the two `if let Ok(..)` misses in the source. -/

structure ObjData where
  material_library : Option String

structure MtlMaterial where
  ambient_map : Option String
  diffuse_map : Option String
  specular_map : Option String
  specular_exponent_map : Option String
  displacement_map : Option String
  dissolve_map : Option String
  decal_map : Option String
  bump_map : Option String

structure GltfDoc where
  buffer_uris : List String
  texture_uris : List String

structure ParseOracles where
  parseObj : Bytes → Option ObjData
  parseMtl : Bytes → Option (List MtlMaterial)
  parseGltf : Bytes → Option GltfDoc

/-- `HashSet::insert` on a set represented as a duplicate-free list. -/
def setInsert (l : List String) (x : String) : List String :=
  if x ∈ l then l else l ++ [x]

def setUnion (l : List String) (xs : List String) : List String :=
  xs.foldl setInsert l

/-- `dependencies_obj` (src/io/obj.rs lines 7-18).  `none` models the panic of
the `unwrap()` on `raw_assets.get(path)`, which cannot fire for keys taken
from the store itself. -/
def dependencies_obj (parseObj : Bytes → Option ObjData) (a : RawAssets)
    (path : String) : Option (List String) :=
  match RawAssets.get a path with
  | Except.error _ => none
  | Except.ok bytes =>
    some (match parseObj bytes with
      | some obj =>
        match obj.material_library with
        | some m => [joinPath (parentPath path) m]
        | none => []
      | none => [])

def mtlMaps (m : MtlMaterial) : List (Option String) :=
  [m.ambient_map, m.diffuse_map, m.specular_map, m.specular_exponent_map,
   m.displacement_map, m.dissolve_map, m.decal_map, m.bump_map]

/-- `dependencies_mtl` (src/io/obj.rs lines 20-54): every present texture-map
field of every material, joined onto the mtl file's base path. -/
def dependencies_mtl (parseMtl : Bytes → Option (List MtlMaterial)) (a : RawAssets)
    (path : String) : Option (List String) :=
  match RawAssets.get a path with
  | Except.error _ => none
  | Except.ok bytes =>
    some (match parseMtl bytes with
      | some materials =>
        materials.foldl (fun acc mat =>
          (mtlMaps mat).foldl (fun acc2 o =>
            match o with
            | some p => setInsert acc2 (joinPath (parentPath path) p)
            | none => acc2) acc) []
      | none => [])

/-- The uri-to-key step of `gltf::dependencies`: a `data:` uri is kept
verbatim, anything else is joined onto the base path. -/
def gltfUri (base uri : String) : String :=
  if strStartsWith uri "data:" then uri else joinPath base uri

/-- `dependencies` for gltf (src/io/gltf.rs lines 6-38): buffer source uris
then texture source uris. -/
def dependencies_gltf (parseGltf : Bytes → Option GltfDoc) (a : RawAssets)
    (path : String) : Option (List String) :=
  match RawAssets.get a path with
  | Except.error _ => none
  | Except.ok bytes =>
    some (match parseGltf bytes with
      | some doc =>
        (doc.buffer_uris ++ doc.texture_uris).foldl
          (fun acc uri => setInsert acc (gltfUri (parentPath path) uri)) []
      | none => [])

/-- The per-extension dispatch of `get_dependencies` (src/io.rs lines 290-306). -/
def scanEntry (P : ParseOracles) (a : RawAssets) (path : String) : Option (List String) :=
  if extension path = "gltf" ∨ extension path = "glb" then
    dependencies_gltf P.parseGltf a path
  else if extension path = "obj" then dependencies_obj P.parseObj a path
  else if extension path = "mtl" then dependencies_mtl P.parseMtl a path
  else some []

/-- Iteration of `get_dependencies` over the store's entries, accumulating
the discovered keys into one deduplicated set. -/
def collectDeps (P : ParseOracles) (a : RawAssets) (acc : List String) :
    List (String × Bytes) → Option (List String)
  | [] => some acc
  | (k, _) :: t =>
    match scanEntry P a k with
    | none => none
    | some ds => collectDeps P a (setUnion acc ds) t

/-- `get_dependencies` (src/io.rs lines 287-311): scan every stored entry by
extension, then drop any discovered key already present in the scanned store
(note: the filter consults the function's own argument). -/
def get_dependencies (P : ParseOracles) (a : RawAssets) : Option (List String) :=
  (collectDeps P a [] a).map (List.filter (fun d => !containsKey a d))

/-! ### The load_async fixed-point loop (src/io/loader.rs lines 55-64) -/

/-- `HashSet` collection of a request batch: duplicates collapse. -/
def dedupKeys (paths : List String) : List String := paths.foldl setInsert []

/-- One fetch round over a batch of keys (`load_async_single`,
src/io/loader.rs lines 95-124), with the three fetchers abstracted into the
`fetch` oracle: the round returns a fragment mapping each distinct requested
key to its fetched bytes. -/
def load_async_single (fetch : String → Bytes) (paths : List String) : RawAssets :=
  (dedupKeys paths).foldl (fun acc p => insertStore acc p (fetch p)) []

/-- The body of the `while` loop of `load_async`: fetch the pending
dependency batch into a fragment, scan the fragment (only the fragment!) for
the next dependency set, and merge the fragment into the running store. -/
def load_step (fetch : String → Bytes) (P : ParseOracles)
    (st : RawAssets × List String) : Option (RawAssets × List String) :=
  (get_dependencies P (load_async_single fetch st.2)).map
    (fun ds => (mergeStore st.1 (load_async_single fetch st.2), ds))

/-- The `while !dependencies.is_empty()` loop, fuel-indexed; `none` means the
fuel ran out before the dependency set emptied.  The `Nat` result counts the
fetch rounds the loop performed. -/
def load_loop (fetch : String → Bytes) (P : ParseOracles) :
    Nat → RawAssets → List String → Option (RawAssets × Nat)
  | 0, _, _ => none
  | n + 1, store, deps =>
    if deps.isEmpty then some (store, 0)
    else
      match load_step fetch P (store, deps) with
      | none => none
      | some (store2, deps2) =>
        (load_loop fetch P n store2 deps2).map (fun r => (r.1, r.2 + 1))

/-- `load_async` (src/io/loader.rs lines 55-64) with an explicit total fetch
round count (the initial round plus the loop's rounds). -/
def load_async_rounds (fetch : String → Bytes) (P : ParseOracles) (fuel : Nat)
    (paths : List String) : Option (RawAssets × Nat) :=
  match get_dependencies P (load_async_single fetch paths) with
  | none => none
  | some deps =>
    (load_loop fetch P fuel (load_async_single fetch paths) deps).map
      (fun r => (r.1, r.2 + 1))

def load_async (fetch : String → Bytes) (P : ParseOracles) (fuel : Nat)
    (paths : List String) : Option RawAssets :=
  (load_async_rounds fetch P fuel paths).map Prod.fst

/-! ### Totality and dedup of dependency discovery -/

theorem get_exact (a : RawAssets) (path : String) (bytes : Bytes)
    (h : lookupStore a path = some bytes) : RawAssets.get a path = Except.ok bytes := by
  unfold RawAssets.get
  rw [h]

theorem dependencies_obj_isSome (parseObj : Bytes → Option ObjData) (a : RawAssets)
    (path : String) (bytes : Bytes) (hg : RawAssets.get a path = Except.ok bytes) :
    (dependencies_obj parseObj a path).isSome = true := by
  unfold dependencies_obj
  rw [hg]
  rfl

theorem dependencies_mtl_isSome (parseMtl : Bytes → Option (List MtlMaterial))
    (a : RawAssets) (path : String) (bytes : Bytes)
    (hg : RawAssets.get a path = Except.ok bytes) :
    (dependencies_mtl parseMtl a path).isSome = true := by
  unfold dependencies_mtl
  rw [hg]
  rfl

theorem dependencies_gltf_isSome (parseGltf : Bytes → Option GltfDoc) (a : RawAssets)
    (path : String) (bytes : Bytes) (hg : RawAssets.get a path = Except.ok bytes) :
    (dependencies_gltf parseGltf a path).isSome = true := by
  unfold dependencies_gltf
  rw [hg]
  rfl

theorem scanEntry_isSome (P : ParseOracles) (a : RawAssets) (path : String)
    (bytes : Bytes) (hb : lookupStore a path = some bytes) :
    (scanEntry P a path).isSome = true := by
  have hg := get_exact a path bytes hb
  unfold scanEntry
  by_cases h1 : extension path = "gltf" ∨ extension path = "glb"
  · rw [if_pos h1]
    exact dependencies_gltf_isSome P.parseGltf a path bytes hg
  · rw [if_neg h1]
    by_cases h2 : extension path = "obj"
    · rw [if_pos h2]
      exact dependencies_obj_isSome P.parseObj a path bytes hg
    · rw [if_neg h2]
      by_cases h3 : extension path = "mtl"
      · rw [if_pos h3]
        exact dependencies_mtl_isSome P.parseMtl a path bytes hg
      · rw [if_neg h3]
        rfl

theorem lookup_isSome_of_mem :
    ∀ (a : RawAssets) (kv : String × Bytes), kv ∈ a → (lookupStore a kv.1).isSome = true := by
  intro a
  induction a with
  | nil => intro kv h; cases h
  | cons hd t ih =>
    intro kv h
    obtain ⟨k0, v0⟩ := hd
    rcases List.mem_cons.mp h with h | h
    · subst h
      simp [lookupStore]
    · by_cases he : k0 = kv.1
      · simp [lookupStore, he]
      · simp only [lookupStore, if_neg he]
        exact ih kv h

theorem collectDeps_isSome (P : ParseOracles) (a : RawAssets) :
    ∀ (t : List (String × Bytes)) (acc : List String),
      (∀ kv ∈ t, (lookupStore a kv.1).isSome = true) →
      (collectDeps P a acc t).isSome = true := by
  intro t
  induction t with
  | nil => intro acc _; rfl
  | cons kv rest ih =>
    intro acc hmem
    obtain ⟨k, v⟩ := kv
    have hk : (lookupStore a k).isSome = true :=
      hmem (k, v) (List.mem_cons_self (k, v) rest)
    obtain ⟨bytes, hb⟩ := Option.isSome_iff_exists.mp hk
    obtain ⟨ds, hds⟩ := Option.isSome_iff_exists.mp (scanEntry_isSome P a k bytes hb)
    unfold collectDeps
    rw [hds]
    exact ih (setUnion acc ds) (fun kv2 h2 => hmem kv2 (List.mem_cons_of_mem (k, v) h2))

theorem get_dependencies_isSome (P : ParseOracles) (a : RawAssets) :
    (get_dependencies P a).isSome = true := by
  unfold get_dependencies
  obtain ⟨l, hl⟩ := Option.isSome_iff_exists.mp
    (collectDeps_isSome P a a [] (fun kv hm => lookup_isSome_of_mem a kv hm))
  rw [hl]
  rfl

theorem nodup_setInsert (l : List String) (x : String) (h : l.Nodup) :
    (setInsert l x).Nodup := by
  unfold setInsert
  by_cases hx : x ∈ l
  · rw [if_pos hx]
    exact h
  · rw [if_neg hx]
    rw [List.nodup_append]
    exact ⟨h, List.nodup_singleton x, by simpa using hx⟩

theorem nodup_setUnion (xs : List String) :
    ∀ l : List String, l.Nodup → (setUnion l xs).Nodup := by
  induction xs with
  | nil => intro l h; exact h
  | cons x rest ih =>
    intro l h
    exact ih (setInsert l x) (nodup_setInsert l x h)

theorem nodup_collectDeps (P : ParseOracles) (a : RawAssets) :
    ∀ (t : List (String × Bytes)) (acc l : List String),
      acc.Nodup → collectDeps P a acc t = some l → l.Nodup := by
  intro t
  induction t with
  | nil =>
    intro acc l ha h
    unfold collectDeps at h
    injection h with h
    subst h
    exact ha
  | cons kv rest ih =>
    intro acc l ha h
    obtain ⟨k, v⟩ := kv
    unfold collectDeps at h
    cases hs : scanEntry P a k with
    | none => rw [hs] at h; cases h
    | some ds =>
      rw [hs] at h
      exact ih (setUnion acc ds) l (nodup_setUnion ds acc ha) h

theorem nodup_get_dependencies (P : ParseOracles) (a : RawAssets) :
    ((get_dependencies P a).getD []).Nodup := by
  unfold get_dependencies
  cases hc : collectDeps P a [] a with
  | none => simp
  | some l =>
    simp only [Option.map_some', Option.getD_some]
    exact List.Nodup.filter _ (nodup_collectDeps P a a [] l List.nodup_nil hc)

/-- C6: dependency discovery is total and best-effort — for any parse oracles
and any key present in the store, the per-format scan yields a set of keys;
unparsable bytes (oracle answers `none`) and unrecognized extensions
contribute zero dependencies instead of failing; and `get_dependencies` over
the whole store always yields a key set. -/
theorem dependency_scan_total_and_resilient (P : ParseOracles) (a : RawAssets)
    (path : String) (bytes : Bytes) (hmem : lookupStore a path = some bytes) :
    (scanEntry P a path).isSome = true
    ∧ (extension path = "obj" → P.parseObj bytes = none → scanEntry P a path = some [])
    ∧ (extension path = "mtl" → P.parseMtl bytes = none → scanEntry P a path = some [])
    ∧ ((extension path = "gltf" ∨ extension path = "glb") → P.parseGltf bytes = none →
        scanEntry P a path = some [])
    ∧ (¬(extension path = "gltf" ∨ extension path = "glb") → extension path ≠ "obj" →
        extension path ≠ "mtl" → scanEntry P a path = some [])
    ∧ (get_dependencies P a).isSome = true := by
  have hg := get_exact a path bytes hmem
  refine ⟨scanEntry_isSome P a path bytes hmem, ?_, ?_, ?_, ?_,
    get_dependencies_isSome P a⟩
  · intro hext hparse
    unfold scanEntry
    rw [hext, if_neg (by decide), if_pos rfl]
    unfold dependencies_obj
    rw [hg]
    dsimp only
    rw [hparse]
  · intro hext hparse
    unfold scanEntry
    rw [hext, if_neg (by decide), if_neg (by decide), if_pos rfl]
    unfold dependencies_mtl
    rw [hg]
    dsimp only
    rw [hparse]
  · intro hext hparse
    unfold scanEntry
    rw [if_pos hext]
    unfold dependencies_gltf
    rw [hg]
    dsimp only
    rw [hparse]
  · intro h1 h2 h3
    unfold scanEntry
    rw [if_neg h1, if_neg h2, if_neg h3]

theorem dependency_scan_total_and_resilient_witness :
    (scanEntry ⟨fun _ => none, fun _ => none, fun _ => none⟩
        [("broken.obj", [0])] "broken.obj").isSome = true
    ∧ scanEntry ⟨fun _ => none, fun _ => none, fun _ => none⟩
        [("broken.obj", [0])] "broken.obj" = some []
    ∧ (get_dependencies ⟨fun _ => none, fun _ => none, fun _ => none⟩
        [("broken.obj", [0])]).isSome = true := by
  have h := dependency_scan_total_and_resilient
    ⟨fun _ => none, fun _ => none, fun _ => none⟩ [("broken.obj", [0])]
    "broken.obj" [0] rfl
  exact ⟨h.1, h.2.1 rfl rfl, h.2.2.2.2.2⟩

/-! ### Concrete reference graphs driving the fixed-point loop

The cyclic graph `A.obj → A.mtl → A.obj` is realizable with the shipped
formats: an obj file naming `A.mtl` as its material library, and a material
whose diffuse map is literally `A.obj`. -/

def cycFetch : String → Bytes := fun k =>
  if k = "A.obj" then [1] else if k = "A.mtl" then [2] else []

def cycOracles : ParseOracles where
  parseObj := fun b => if b = [1] then some ⟨some "A.mtl"⟩ else none
  parseMtl := fun b =>
    if b = [2] then some [⟨none, some "A.obj", none, none, none, none, none, none⟩]
    else none
  parseGltf := fun _ => none

theorem cyc_step_mtl (s : RawAssets) :
    load_step cycFetch cycOracles (s, ["A.mtl"])
      = some (mergeStore s [("A.mtl", [2])], ["A.obj"]) := rfl

theorem cyc_step_obj (s : RawAssets) :
    load_step cycFetch cycOracles (s, ["A.obj"])
      = some (mergeStore s [("A.obj", [1])], ["A.mtl"]) := rfl

theorem cyc_loop_never_empties :
    ∀ n : Nat, ∀ s : RawAssets,
      load_loop cycFetch cycOracles n s ["A.mtl"] = none
      ∧ load_loop cycFetch cycOracles n s ["A.obj"] = none := by
  intro n
  induction n with
  | zero => intro s; exact ⟨rfl, rfl⟩
  | succ n ih =>
    intro s
    constructor
    · rw [load_loop, if_neg (by decide), cyc_step_mtl s]
      dsimp only
      rw [(ih (mergeStore s [("A.mtl", [2])])).2]
      rfl
    · rw [load_loop, if_neg (by decide), cyc_step_obj s]
      dsimp only
      rw [(ih (mergeStore s [("A.obj", [1])])).1]
      rfl

/-- C1 counterexample: on the cyclic graph `A.obj → A.mtl → A.obj`, after the
first loop iteration the accumulated store already holds `A.obj`, yet the
dependency set produced for the next round is exactly `[A.obj]` — the
resolver re-requests a key that is already present in the accumulated store,
because `get_dependencies` subtracts only keys of the round's fragment. -/
theorem cyclic_graph_rerequests_stored_key :
    get_dependencies cycOracles (load_async_single cycFetch ["A.obj"]) = some ["A.mtl"]
    ∧ load_step cycFetch cycOracles (load_async_single cycFetch ["A.obj"], ["A.mtl"])
        = some ([("A.obj", [1]), ("A.mtl", [2])], ["A.obj"])
    ∧ containsKey [("A.obj", [1]), ("A.mtl", [2])] "A.obj" = true :=
  ⟨rfl, rfl, rfl⟩

/-- C1 amended: the loop filters each round's discovered keys only against
that round's freshly fetched fragment, never against the accumulated store,
so a key already stored can be re-requested; on the cyclic graph
`A.obj → A.mtl → A.obj` the dependency set alternates between the two keys
and never empties, hence `load_async` diverges — the fuel-indexed loop
returns `none` for every fuel bound. -/
theorem cyclic_graph_loop_never_terminates :
    ∀ fuel : Nat, load_async cycFetch cycOracles fuel ["A.obj"] = none := by
  intro fuel
  unfold load_async load_async_rounds
  rw [show get_dependencies cycOracles (load_async_single cycFetch ["A.obj"])
      = some ["A.mtl"] from rfl]
  dsimp only
  rw [(cyc_loop_never_empties fuel (load_async_single cycFetch ["A.obj"])).1]
  rfl

/-! The acyclic chain `A.obj → A.mtl → t.png → (no deps)`. -/

def chainFetch : String → Bytes := fun k =>
  if k = "A.obj" then [1] else if k = "A.mtl" then [2]
  else if k = "t.png" then [3] else []

def chainOracles : ParseOracles where
  parseObj := fun b => if b = [1] then some ⟨some "A.mtl"⟩ else none
  parseMtl := fun b =>
    if b = [2] then some [⟨none, some "t.png", none, none, none, none, none, none⟩]
    else none
  parseGltf := fun _ => none

theorem nodup_fold_insert (fetch : String → Bytes) :
    ∀ (l : List String) (acc : RawAssets), (storeKeys acc).Nodup →
      (storeKeys (l.foldl (fun acc2 p => insertStore acc2 p (fetch p)) acc)).Nodup := by
  intro l
  induction l with
  | nil => intro acc h; exact h
  | cons x rest ih =>
    intro acc h
    exact ih (insertStore acc x (fetch x)) (nodup_insertStore x (fetch x) acc h)

theorem nodup_load_async_single (fetch : String → Bytes) (paths : List String) :
    (storeKeys (load_async_single fetch paths)).Nodup :=
  nodup_fold_insert fetch (dedupKeys paths) [] List.nodup_nil

/-- C3: on the chain `A.obj → A.mtl → t.png → (no deps)` started from the
single top-level key `A.obj`, the fixed-point loop performs exactly 3 fetch
rounds and the returned store holds exactly those three keys; moreover every
round's discovered-key set is deduplicated (`get_dependencies` yields a
duplicate-free list, and a fetch round's batch stores each key once). -/
theorem chain_resolves_in_three_rounds :
    load_async_rounds chainFetch chainOracles 9 ["A.obj"]
      = some ([("A.obj", [1]), ("A.mtl", [2]), ("t.png", [3])], 3)
    ∧ load_async chainFetch chainOracles 2 ["A.obj"] = none
    ∧ (∀ (P : ParseOracles) (a : RawAssets), ((get_dependencies P a).getD []).Nodup)
    ∧ (∀ (fetch : String → Bytes) (paths : List String),
        (storeKeys (load_async_single fetch paths)).Nodup) :=
  ⟨rfl, rfl, fun P a => nodup_get_dependencies P a,
    fun fetch paths => nodup_load_async_single fetch paths⟩

end ThreeDAsset
